import Mathlib

/-!
Verification of the jcomeauictx/curvature repository (earthcurvature.py,
hgtread.py, panorama.py) against its natural-language specification.

The Python sources are shallowly embedded: integers become `Int`, Python
floats used for exact small-magnitude arithmetic become `Rat`, and the
transcendental geometry (trigonometric movement functions) is embedded over
`Real`.  Python division and modulo operators are translated explicitly:
`Int.fdiv`/`Int.fmod` for Python's floor-division and sign-of-divisor
modulo, truncation toward zero for `int()`, and half-away-from-zero
rounding for Python 2's `round()`.
-/

namespace Curvature

/-- Truncation toward zero, the semantics of Python's `int()` on a number. -/
def pytrunc (q : ℚ) : ℤ := if 0 ≤ q then ⌊q⌋ else ⌈q⌉

/-- Python 2 `round()`: round half away from zero. -/
def pyround (q : ℚ) : ℤ := if 0 ≤ q then round q else -round (-q)

/-- Python's `%` on rationals (sign of the divisor, floor convention). -/
def pymod (x n : ℚ) : ℚ := x - n * ⌊x / n⌋

/-- Python's `math.copysign(1, x)` for an integer `x` (zero counts as
positive, as it does for the integer literals used by the source). -/
def pysign (x : ℤ) : ℤ := if x < 0 then -1 else 1

/-! ## panorama.correct_for_no_data

The source scans `elevations` from the farthest index down to index 0,
counting runs of the void sentinel -32768 and, on reaching valid data,
rewriting `elevations[index + i] = int(round(elevation + i * increment))`
for `i = 0 .. count` with `increment = float(last_known - elevation) /
(count + 1)`.  We embed the in-place loop as a pure function: the list is
reversed (so the scan is structural), processed by `cfnRevGo`, and
reversed back. -/

/-- The block of values the source writes when a void run of length
`count` is closed by valid data `elevation`, with `lastKnown` the farther
neighbour (or the farthest-default seed): index order, `i = 0` being the
valid sample itself. -/
def runWrites (elevation lastKnown : ℤ) (count : ℕ) : List ℤ :=
  (List.range (count + 1)).map fun (i : ℕ) =>
    pyround ((elevation : ℚ) + (i : ℚ) * (((lastKnown : ℚ) - (elevation : ℚ)) / ((count : ℚ) + 1)))

/-- State-passing form of the scan over the reversed (farthest-first)
elevation list: `lastKnown` is the last valid value seen (seeded with the
farthest default), `count` the number of pending void samples. -/
def cfnRevGo (lastKnown : ℤ) (count : ℕ) : List ℤ → List ℤ
  | [] => List.replicate count (-32768)
  | e :: rest =>
    if e = -32768 then cfnRevGo lastKnown (count + 1) rest
    else (runWrites e lastKnown count).reverse ++ cfnRevGo e 0 rest

/-- Function `correct_for_no_data` from panorama.py (the `raw` field of each entry,
with `farthest` the caller-supplied seed `farthest[raw]`). -/
def correct_for_no_data (farthest : ℤ) (elevations : List ℤ) : List ℤ :=
  (cfnRevGo farthest 0 elevations.reverse).reverse

/-- Values the specification says a closed void run of length `n` receives,
in index order: `round(current + (i+1) * increment)` for the `i`-th void
slot, with `increment = (previous_good - current) / (n + 1)`. -/
def specRunValues (current previousGood : ℤ) (n : ℕ) : List ℤ :=
  (List.range n).map fun (i : ℕ) =>
    pyround ((current : ℚ) + ((i : ℚ) + 1) * (((previousGood : ℚ) - (current : ℚ)) / ((n : ℚ) + 1)))

/-! ## hgtread constants -/

def SAMPLE_SECONDS : ℤ := 3

def DEGREE_IN_SECONDS : ℤ := 60 * 60

/-- Constant `(DEGREE_IN_SECONDS / SAMPLE_SECONDS) + 1`, Python 2 integer division. -/
def SAMPLES_PER_ROW : ℤ := DEGREE_IN_SECONDS.fdiv SAMPLE_SECONDS + 1

def BYTES_PER_ROW : ℤ := SAMPLES_PER_ROW * 2

/-! ## hgtread.Degree

The source subclasses `tuple`: a DMS triple plus a mutable `sign`
attribute initialised from `math.copysign(1, self[0])`.  Tuple equality
(used by the `self == (0, 0, 0)` test in `__add__`) ignores `sign`, so we
carry the triple and the sign as separate fields. -/

structure Degree where
  d : ℤ
  m : ℤ
  s : ℤ
  sign : ℤ
deriving DecidableEq, Repr

/-- Constructing `Degree((d, m, s))` from a triple: the sign attribute is
`copysign(1, d)`. -/
def Degree.ofTriple (d m s : ℤ) : Degree := ⟨d, m, s, pysign d⟩

/-- Method `Degree.__add__`: add a number of arc-seconds with sign-directed
rollover of seconds into minutes and minutes into degrees.  Python's `%`
with a possibly negative modulus is `Int.fmod`, and `seconds /
abs(seconds)` is `pysign seconds` for nonzero `seconds`. -/
def Degree.add (self : Degree) (seconds : ℤ) : Degree :=
  if seconds = 0 then self
  else
    let sign := if self.d = 0 ∧ self.m = 0 ∧ self.s = 0 then pysign seconds else self.sign
    let s := self.s + seconds
    if s.natAbs = 60 ∨ (s ≠ 0 ∧ pysign s ≠ sign) then
      let s' := s.fmod (sign * 60)
      let m := self.m + pysign seconds
      if m.natAbs = 60 ∨ (m ≠ 0 ∧ pysign m ≠ sign) then
        ⟨self.d + pysign seconds, m.fmod (sign * 60), s', sign⟩
      else
        ⟨self.d, m, s', sign⟩
    else
      ⟨self.d, self.m, s, sign⟩

/-- The working sign `__add__` carries: the stored sign attribute, except
that the first nonzero addition to an exact-zero triple adopts the sign of
the increment. -/
def degWorkSign (self : Degree) (seconds : ℤ) : ℤ :=
  if self.d = 0 ∧ self.m = 0 ∧ self.s = 0 then pysign seconds else self.sign

/-! ## hgtread.dms / hgtread.decimal -/

/-- Function `dms(degrees, roundto=SAMPLE_SECONDS)`: decompose a decimal degree into
a DMS triple, `int()` truncating toward zero and the seconds rounded down
to a multiple of `roundto` by Python 2 integer floor-division. -/
def dms (degrees : ℚ) (roundto : ℤ := SAMPLE_SECONDS) : ℤ × ℤ × ℤ :=
  let d := pytrunc degrees
  let m := pytrunc ((degrees - (d : ℚ)) * 60)
  let s := (degrees - (d : ℚ) - (m : ℚ) / 60) * 3600
  let rounded_s := (pytrunc s).fdiv roundto * roundto
  (d, m, rounded_s)

/-- Function `decimal(dms)`: recompose decimal degrees from a DMS triple. -/
def decimal (t : ℤ × ℤ × ℤ) : ℚ :=
  (t.1 : ℚ) + (t.2.1 : ℚ) / 60 + (t.2.2 : ℚ) / (60 * 60)

/-! ## hgtread.get_hgt_file

The filesystem search (`glob` over up to three directory depths) is
outside the embedding; we keep the pure part: the tile-name fields the
format strings produce, the returned first-sample integer latitude and
longitude, and the per-sample deltas.  `northTile = true` renders as the
`N` prefix, `eastTile = true` as `E`; `latNum`/`lonNum` are the numbers
printed in the file name. -/

structure HgtFile where
  northTile : Bool
  latNum : ℤ
  eastTile : Bool
  lonNum : ℤ
  lat : ℤ
  lon : ℤ
  d_lat : ℤ
  d_lon : ℤ
deriving DecidableEq, Repr

/-- Function `get_hgt_file(north, east)` with both arguments already decimal
degrees (the source passes them through `degrees()`). -/
def get_hgt_file (north east : ℚ) : HgtFile :=
  let latitude := north
  let p1 : Bool × ℤ × ℤ × ℤ :=
    if latitude < 0 then
      let lat := pytrunc latitude
      (false, |lat| + 1, lat, SAMPLE_SECONDS)
    else
      let lat := pytrunc latitude + 1
      (true, lat - 1, lat, -SAMPLE_SECONDS)
  let longitude := east
  let p2 : Bool × ℤ × ℤ :=
    if longitude < 0 then
      let lon := pytrunc longitude - 1
      (false, |lon|, lon)
    else
      let lon := pytrunc longitude
      (true, lon, lon)
  ⟨p1.1, p1.2.1, p2.1, p2.2.1, p1.2.2.1, p2.2.2, p1.2.2.2, SAMPLE_SECONDS⟩

/-- Latitude encoded by a tile-name latitude field, per the DTED naming
convention quoted in the source: the name gives the southwest corner. -/
def tileNameLat : Bool → ℤ → ℤ
  | true, latNum => latNum
  | false, latNum => -latNum

/-- Longitude encoded by a tile-name longitude field. -/
def tileNameLon : Bool → ℤ → ℤ
  | true, lonNum => lonNum
  | false, lonNum => -lonNum

/-! ## hgtread.north_offset / hgtread.east_offset -/

/-- Function `north_offset(north, direction)`: byte offset of the row for a DMS
latitude, given the per-sample latitude delta in arc-seconds. -/
def north_offset (north : Degree) (direction : ℤ) : ℤ :=
  let row := ((north.m * 60 + north.s).natAbs : ℤ).fdiv ((direction.natAbs : ℤ))
  let row := if pysign direction ≠ north.sign then SAMPLES_PER_ROW - row - 1 else row
  row * BYTES_PER_ROW

/-- Function `east_offset(east, direction)`: byte offset within a row for a DMS
longitude, given the per-sample longitude delta in arc-seconds. -/
def east_offset (east : Degree) (direction : ℤ) : ℤ :=
  let offset := ((east.m * 60 + east.s).natAbs : ℤ).fdiv ((direction.natAbs : ℤ))
  let offset := if pysign direction ≠ east.sign then SAMPLES_PER_ROW - offset - 1 else offset
  offset * 2

/-- The byte-offset computation exactly as the specification words it:
`offset_within_row = |minutes*60 + seconds| / |delta|`, flipped to
`row_count - offset - 1` when the delta's sign disagrees with the
coordinate's sign, then scaled by the byte width. -/
def claimOffset (minutes seconds delta sign width : ℤ) : ℤ :=
  let offset := |minutes * 60 + seconds|.fdiv |delta|
  (if pysign delta ≠ sign then SAMPLES_PER_ROW - offset - 1 else offset) * width

/-! ## panorama.cartesian -/

/-- Function `cartesian(bearing)`: convert a compass bearing to a math-module
bearing (also the inverse conversion; the source aliases `compass` to the
same function). -/
def cartesian (bearing : ℚ) : ℚ :=
  let converted := pymod (90 - bearing) 360
  if converted > 180 then converted - 360
  else if converted < -180 then converted + 360
  else converted

/-- The normalization the specification describes: `x mod 360` renormalized
into the interval from just above -180 up to 180. -/
def renorm360 (x : ℚ) : ℚ :=
  let z := pymod x 360
  if z > 180 then z - 360 else z

/-! ## earthcurvature configuration (module level of earthcurvature.py)

The radius parsed from the environment is a Python float that the source
deliberately steers through the non-finite values `inf` and `-inf`; we
model exactly the values the configuration distinguishes. -/

inductive Ext (α : Type) where
  | fin (x : α)
  | posInf
  | negInf
deriving DecidableEq, Repr

/-- The test `RADIUS > 0 and not math.isinf(RADIUS)` guarding the
refraction fold-in. -/
def Ext.isPosFinite : Ext ℚ → Bool
  | .fin r => decide (0 < r)
  | _ => false

/-- The effective radius `ER` after the module-level configuration block:
`RADIUS / (1 - K)` for a finite positive radius, otherwise the configured
radius unchanged. -/
def configER (radius : Ext ℚ) (k : ℚ) : Ext ℚ :=
  match radius with
  | .fin r => if 0 < r then .fin (r / (1 - k)) else .fin r
  | other => other

/-- The refraction coefficient `K` after the module-level configuration
block: kept for a finite positive radius, otherwise forced to zero. -/
def configK (radius : Ext ℚ) (k : ℚ) : ℚ :=
  match radius with
  | .fin r => if 0 < r then k else 0
  | _ => 0

/-! ## Real-valued geometry (panorama.py movement functions,
earthcurvature.earthcurvature)

The trigonometry of the source is embedded over the reals. -/

noncomputable section Geometry

open Real

/-- Constant `GLOBE = 3959.0` miles, the mean earth radius used for the flat
configurations. -/
def GLOBE : ℝ := 3959

/-- Constant `KM = 1.60934`, miles to kilometers. -/
def KM : ℝ := 1.60934

/-- Constant `RADIUS` in meters as hgtread.py computes it under the default
(equirectangular) configuration: `GLOBE * KM * 1000`. -/
def RADIUS : ℝ := GLOBE * KM * 1000

/-- Constant `DEGREE_IN_METERS = (RADIUS * 2 * math.pi) / 360.0`. -/
def DEGREE_IN_METERS : ℝ := RADIUS * 2 * π / 360

/-- Python's `%` on reals (sign of the divisor, floor convention). -/
def pymodR (x n : ℝ) : ℝ := x - n * ⌊x / n⌋

/-- Conversion `math.radians`. -/
def radiansR (d : ℝ) : ℝ := d * (π / 180)

/-- Conversion `math.degrees`. -/
def degreesR (r : ℝ) : ℝ := r * (180 / π)

/-- Function `panorama.cartesian` on floats (same algorithm as the rational
version used for the involution claim). -/
def cartesianR (bearing : ℝ) : ℝ :=
  let converted := pymodR (90 - bearing) 360
  if converted > 180 then converted - 360
  else if converted < -180 then converted + 360
  else converted

/-- Alias `compass = cartesian` (the source aliases the same function). -/
def compassR : ℝ → ℝ := cartesianR

/-- Function `math.atan2(y, x)`, the argument of the point `(x, y)` in the range
from -pi exclusive to pi inclusive. -/
def atan2 (y x : ℝ) : ℝ := Complex.arg ⟨x, y⟩

/-- Function `panorama.spherical_move`. -/
def spherical_move (latitude longitude bearing distance : ℝ)
    (compass_bearing : Bool := true) : ℝ × ℝ :=
  let radians := if compass_bearing then radiansR (cartesianR bearing) else radiansR bearing
  let distance_x := Real.cos radians * distance
  let distance_y := Real.sin radians * distance
  let degrees_y := distance_y / DEGREE_IN_METERS
  let average_latitude := radiansR (latitude + degrees_y / 2)
  let degrees_x := distance_x / Real.cos average_latitude / DEGREE_IN_METERS
  (degrees_y + latitude, degrees_x + longitude)

/-- Function `panorama.equirectangular_move`. -/
def equirectangular_move (latitude longitude bearing distance : ℝ)
    (compass_bearing : Bool := true) : ℝ × ℝ :=
  let radians := if compass_bearing then radiansR (cartesianR bearing) else radiansR bearing
  let dx := Real.sin radians * (distance / DEGREE_IN_METERS)
  let dy := Real.cos radians * (distance / DEGREE_IN_METERS)
  (latitude + dx, longitude + dy)

/-- Function `panorama.latitude_to_rho` (the source reuses it as
`rho_to_latitude`). -/
def latitude_to_rho (latitude : ℝ) : ℝ := 90 - latitude

/-- Function `panorama.relative_bearing`: bearing relative to the pole-facing
direction, returned as a cartesian angle in radians. -/
def relative_bearing (bearing longitude : ℝ) (compass_bearing : Bool := true) : ℝ :=
  let bearing := if compass_bearing then bearing else compassR bearing
  radiansR (cartesianR (180 + longitude + bearing))

/-- Function `panorama.azimuthal_equidistant_move`.  The source also computes
`relative_bearing(bearing, longitude, compass_bearing)` here but never
uses the value; the move below is exactly the code that feeds the
returned tuple. -/
def azimuthal_equidistant_move (latitude longitude bearing distance : ℝ)
    (compass_bearing : Bool := true) : ℝ × ℝ :=
  let rho := latitude_to_rho latitude
  let theta := radiansR longitude
  let x := rho * Real.sin theta
  let y := rho * Real.cos theta
  let d := equirectangular_move 0 0 bearing distance false
  let x := x + d.1
  let y := y + d.2
  let rho := Real.sqrt (x * x + y * y)
  let theta := atan2 y x
  (latitude_to_rho rho, compassR (degreesR theta))

/-- Factor turning a quantity in `unit` into miles, the dispatch of
`earthcurvature.miles` through the `*_to_miles` helpers; `none` is the
`NotImplementedError` branch. -/
def milesFactor : String → Option ℝ
  | "mm" => some (1 / (KM * 1000000))
  | "cm" => some (1 / (KM * 100000))
  | "m" => some (1 / (KM * 1000))
  | "km" => some (1 / KM)
  | "inches" => some (1 / (5280 * 12))
  | "feet" => some (1 / 5280)
  | "yards" => some (3 / 5280)
  | "miles" => some 1
  | _ => none

/-- Factor turning miles into `unit`, the dispatch of
`earthcurvature.convert`; `none` covers both the unit-list check and the
callable lookup failing. -/
def convertFactor : String → Option ℝ
  | "mm" => some (KM * 1000000)
  | "cm" => some (KM * 100000)
  | "m" => some (KM * 1000)
  | "km" => some KM
  | "inches" => some (5280 * 12)
  | "feet" => some 5280
  | "yards" => some (5280 / 3)
  | "miles" => some 1
  | _ => none

/-- Function `earthcurvature.earthcurvature(distance, unit, dropunit, height)`
evaluated under effective radius `er`: the data part of the returned
tuple, `(distance, unit, h, dropunit)`.  The drop is zero when `not ER or
math.isinf(ER)`; otherwise it follows the `h = r * (1 - cos a)` formula,
with `none` for the unit-lookup errors the source raises. -/
def earthcurvature (er : Ext ℝ) (distance : ℝ) (unit dropunit : String) :
    Option (ℝ × String × ℝ × String) :=
  match er with
  | .posInf => some (distance, unit, 0, dropunit)
  | .negInf => some (distance, unit, 0, dropunit)
  | .fin r =>
    if r = 0 then some (distance, unit, 0, dropunit)
    else
      match milesFactor unit, convertFactor dropunit with
      | some mf, some cf =>
        let c := 2 * π * r
        let d := distance * mf
        let a := 360 / c * d
        some (distance, unit, r * (1 - Real.cos (radiansR a)) * cf, dropunit)
      | _, _ => none

/-- The effective radius over the reals, mirroring `configER` for the
non-finite configurations that claim C9 quantifies over. -/
def configER_R (radius : Ext ℝ) (k : ℝ) : Ext ℝ :=
  match radius with
  | .fin r => if 0 < r then .fin (r / (1 - k)) else .fin r
  | other => other

end Geometry

/-! ## Helper lemmas: void interpolation -/

theorem pyround_intCast (n : ℤ) : pyround ((n : ℤ) : ℚ) = n := by
  unfold pyround
  rcases le_or_lt 0 ((n : ℤ) : ℚ) with h | h
  · rw [if_pos h, round_intCast]
  · rw [if_neg (not_le.mpr h),
      show -((n : ℤ) : ℚ) = (((-n : ℤ) : ℤ) : ℚ) by push_cast; ring,
      round_intCast, neg_neg]

theorem cfnRevGo_void (L : ℤ) (k : ℕ) (rest : List ℤ) :
    cfnRevGo L k ((-32768) :: rest) = cfnRevGo L (k + 1) rest := by
  simp [cfnRevGo]

theorem cfnRevGo_valid {e : ℤ} (h : e ≠ -32768) (L : ℤ) (k : ℕ) (rest : List ℤ) :
    cfnRevGo L k (e :: rest) = (runWrites e L k).reverse ++ cfnRevGo e 0 rest := by
  simp only [cfnRevGo]
  rw [if_neg h]

theorem runWrites_eq_cons (e L : ℤ) (k : ℕ) :
    runWrites e L k = e :: specRunValues e L k := by
  unfold runWrites specRunValues
  rw [List.range_succ_eq_map, List.map_cons, List.map_map]
  congr 1
  · simpa using pyround_intCast e
  · apply List.map_congr_left
    intro i _
    simp only [Function.comp_apply, Nat.succ_eq_add_one]
    push_cast
    ring_nf

theorem runWrites_length (e L : ℤ) (k : ℕ) : (runWrites e L k).length = k + 1 := by
  simp [runWrites]

theorem specRunValues_length (c g : ℤ) (n : ℕ) : (specRunValues c g n).length = n := by
  simp [specRunValues]

theorem cfnRevGo_length : ∀ (xs : List ℤ) (L : ℤ) (k : ℕ),
    (cfnRevGo L k xs).length = k + xs.length := by
  intro xs
  induction xs with
  | nil => intro L k; simp [cfnRevGo]
  | cons x rest ih =>
    intro L k
    by_cases h : x = -32768
    · subst h
      rw [cfnRevGo_void, ih]
      simp only [List.length_cons]
      omega
    · rw [cfnRevGo_valid h, List.length_append, List.length_reverse,
        runWrites_length, ih]
      simp only [List.length_cons]
      omega

theorem cfnRevGo_replicate : ∀ (n : ℕ) (L : ℤ) (k : ℕ) (rest : List ℤ),
    cfnRevGo L k (List.replicate n (-32768) ++ rest) = cfnRevGo L (k + n) rest := by
  intro n
  induction n with
  | zero => intro L k rest; simp
  | succ n ih =>
    intro L k rest
    rw [List.replicate_succ, List.cons_append, cfnRevGo_void, ih]
    congr 1
    omega

theorem cfnRevGo_append_valid {g : ℤ} (hg : g ≠ -32768) (bs : List ℤ) :
    ∀ (as : List ℤ) (L : ℤ) (k : ℕ), ∃ P : List ℤ,
      cfnRevGo L k (as ++ g :: bs) = P ++ g :: cfnRevGo g 0 bs ∧
      P.length = k + as.length := by
  intro as
  induction as with
  | nil =>
    intro L k
    refine ⟨(specRunValues g L k).reverse, ?_, by simp [specRunValues_length]⟩
    rw [List.nil_append, cfnRevGo_valid hg, runWrites_eq_cons]
    simp
  | cons a as ih =>
    intro L k
    by_cases h : a = -32768
    · obtain ⟨P, hP, hlen⟩ := ih L (k + 1)
      subst h
      refine ⟨P, ?_, ?_⟩
      · rw [List.cons_append, cfnRevGo_void]
        exact hP
      · rw [hlen]
        simp only [List.length_cons]
        omega
    · obtain ⟨P, hP, hlen⟩ := ih a 0
      refine ⟨(runWrites a L k).reverse ++ P, ?_, ?_⟩
      · rw [List.cons_append, cfnRevGo_valid h, hP, List.append_assoc]
      · rw [List.length_append, List.length_reverse, runWrites_length, hlen]
        simp only [List.length_cons]
        omega

theorem cfnRevGo_getD : ∀ (xs : List ℤ) (L : ℤ) (k i : ℕ),
    i < xs.length → xs.getD i (-32768) ≠ -32768 →
    (cfnRevGo L k xs).getD (k + i) (-32768) = xs.getD i (-32768) := by
  intro xs
  induction xs with
  | nil => intro L k i h; simp at h
  | cons x rest ih =>
    intro L k i hi hx
    by_cases h : x = -32768
    · cases i with
      | zero => simp [h] at hx
      | succ i =>
        subst h
        rw [cfnRevGo_void]
        rw [List.getD_cons_succ] at hx ⊢
        have := ih L (k + 1) i (by simpa using hi) hx
        rw [show k + (i + 1) = k + 1 + i by omega]
        exact this
    · rw [cfnRevGo_valid h]
      have hW : (runWrites x L k).reverse.length = k + 1 := by
        rw [List.length_reverse, runWrites_length]
      cases i with
      | zero =>
        rw [List.getD_cons_zero, Nat.add_zero,
          List.getD_append _ _ _ _ (by omega)]
        rw [runWrites_eq_cons,
          show (x :: specRunValues x L k).reverse
              = (specRunValues x L k).reverse ++ [x] by simp]
        rw [List.getD_append_right _ _ _ _ (by simp [specRunValues_length])]
        simp [specRunValues_length]
      | succ i =>
        rw [List.getD_cons_succ] at hx ⊢
        rw [List.getD_append_right _ _ _ _ (by omega), hW,
          show k + (i + 1) - (k + 1) = i by omega]
        have := ih x 0 i (by simpa using hi) hx
        simpa using this

/-- Claim C1: `correct_for_no_data` scans from the farthest index to index
0 and replaces each run of `n` consecutive -32768 entries bounded below by
a valid value `c` by linear interpolation with increment
`(previous_good - current) / (n + 1)`, the previous good value being the
next valid entry above the run (or the caller-supplied farthest default
for a run at the far end), writing rounded integers in index order; in
particular `[13, void, void]` with farthest default 0 becomes `[13, 9, 4]`
and `[13, void, void, void, 26]` becomes `[13, 16, 20, 23, 26]`. -/
theorem void_interpolation_correct :
    (correct_for_no_data 0 [13, -32768, -32768] = [13, 9, 4]) ∧
    (correct_for_no_data 0 [13, -32768, -32768, -32768, 26] = [13, 16, 20, 23, 26]) ∧
    (∀ (f : ℤ) (near far : List ℤ) (c g : ℤ) (n : ℕ), c ≠ -32768 → g ≠ -32768 →
      ∃ Q R : List ℤ,
        correct_for_no_data f (near ++ c :: List.replicate n (-32768) ++ g :: far)
          = Q ++ c :: (specRunValues c g n ++ g :: R) ∧
        Q.length = near.length ∧ R.length = far.length) ∧
    (∀ (f : ℤ) (near : List ℤ) (c : ℤ) (n : ℕ), c ≠ -32768 →
      ∃ Q : List ℤ,
        correct_for_no_data f (near ++ c :: List.replicate n (-32768))
          = Q ++ c :: specRunValues c f n ∧ Q.length = near.length) := by
  refine ⟨?_, ?_, ?_, ?_⟩
  · norm_num [correct_for_no_data, cfnRevGo, runWrites, pyround, round_eq,
      List.range_succ]
  · norm_num [correct_for_no_data, cfnRevGo, runWrites, pyround, round_eq,
      List.range_succ]
  · intro f near far c g n hc hg
    obtain ⟨P, hP, hPlen⟩ :=
      cfnRevGo_append_valid hg (List.replicate n (-32768) ++ c :: near.reverse)
        far.reverse f 0
    have hrev : (near ++ c :: List.replicate n (-32768) ++ g :: far).reverse
        = far.reverse ++ g :: (List.replicate n (-32768) ++ c :: near.reverse) := by
      simp [List.reverse_append, List.reverse_replicate, List.append_assoc]
    refine ⟨(cfnRevGo c 0 near.reverse).reverse, P.reverse, ?_, ?_, ?_⟩
    · unfold correct_for_no_data
      rw [hrev, hP, cfnRevGo_replicate, Nat.zero_add, cfnRevGo_valid hc,
        runWrites_eq_cons]
      simp [List.reverse_append, List.append_assoc]
    · rw [List.length_reverse, cfnRevGo_length, List.length_reverse]
      omega
    · rw [List.length_reverse, hPlen, List.length_reverse]
      omega
  · intro f near c n hc
    have hrev : (near ++ c :: List.replicate n (-32768)).reverse
        = List.replicate n (-32768) ++ c :: near.reverse := by
      simp [List.reverse_append, List.reverse_replicate]
    refine ⟨(cfnRevGo c 0 near.reverse).reverse, ?_, ?_⟩
    · unfold correct_for_no_data
      rw [hrev, cfnRevGo_replicate, Nat.zero_add, cfnRevGo_valid hc,
        runWrites_eq_cons]
      simp [List.reverse_append, List.append_assoc]
    · rw [List.length_reverse, cfnRevGo_length, List.length_reverse]
      omega

/-- Witness for C1: the general mid-run statement applied at the concrete
input `[13, void, void, void, 26]` with farthest default 0. -/
theorem void_interpolation_correct_witness :
    ∃ Q R : List ℤ,
      correct_for_no_data 0 ([] ++ (13 : ℤ) :: List.replicate 3 (-32768) ++ 26 :: [])
        = Q ++ 13 :: (specRunValues 13 26 3 ++ 26 :: R) ∧
      Q.length = List.length ([] : List ℤ) ∧ R.length = List.length ([] : List ℤ) :=
  void_interpolation_correct.2.2.1 0 [] [] 13 26 3 (by decide) (by decide)

/-- Claim C10: the interpolation pass never rewrites a valid sample: every
entry whose raw value is not the void sentinel -32768 is returned
unchanged (and the list keeps its length). -/
theorem void_interpolation_frame (f : ℤ) (l : List ℤ) :
    (correct_for_no_data f l).length = l.length ∧
    ∀ i : ℕ, i < l.length → l.getD i (-32768) ≠ -32768 →
      (correct_for_no_data f l).getD i (-32768) = l.getD i (-32768) := by
  have hcl : (cfnRevGo f 0 l.reverse).length = l.length := by
    rw [cfnRevGo_length, List.length_reverse]
    omega
  have hlen : (correct_for_no_data f l).length = l.length := by
    unfold correct_for_no_data
    rw [List.length_reverse]
    exact hcl
  refine ⟨hlen, ?_⟩
  intro i hi hne
  have hj : l.length - 1 - i < l.reverse.length := by
    rw [List.length_reverse]; omega
  have hrevD : l.reverse.getD (l.length - 1 - i) (-32768) = l.getD i (-32768) := by
    rw [List.getD_eq_getElem _ _ hj, List.getElem_reverse,
      ← List.getD_eq_getElem _ (-32768) (show l.length - 1 - (l.length - 1 - i) < l.length by omega)]
    congr 1
    omega
  have hcore := cfnRevGo_getD l.reverse f 0 (l.length - 1 - i) hj
    (by rw [hrevD]; exact hne)
  rw [Nat.zero_add, hrevD] at hcore
  have hi' : i < (correct_for_no_data f l).length := by rw [hlen]; exact hi
  unfold correct_for_no_data at hi' ⊢
  rw [List.getD_eq_getElem _ _ hi', List.getElem_reverse,
    ← List.getD_eq_getElem _ (-32768)
      (show (cfnRevGo f 0 l.reverse).length - 1 - i < (cfnRevGo f 0 l.reverse).length by omega)]
  rw [show (cfnRevGo f 0 l.reverse).length - 1 - i = l.length - 1 - i by omega]
  exact hcore

/-- Witness for C10: the valid sample at index 0 of `[13, void]` is
returned unchanged. -/
theorem void_interpolation_frame_witness :
    (correct_for_no_data 0 [13, -32768]).getD 0 (-32768) = [13, -32768].getD 0 (-32768) :=
  (void_interpolation_frame 0 [13, -32768]).2 0 (by decide) (by decide)

/-! ## Helper lemmas: compass-cartesian conversion -/

theorem pymod_eq_mul_fract {n : ℚ} (hn : n ≠ 0) (x : ℚ) :
    pymod x n = n * Int.fract (x / n) := by
  unfold pymod Int.fract
  rw [mul_sub, mul_div_cancel₀ x hn]

theorem pymod_bounds {n : ℚ} (hn : 0 < n) (x : ℚ) :
    0 ≤ pymod x n ∧ pymod x n < n := by
  rw [pymod_eq_mul_fract hn.ne' x]
  constructor
  · exact mul_nonneg hn.le (Int.fract_nonneg _)
  · simpa using (mul_lt_mul_left hn).mpr (Int.fract_lt_one (x / n))

theorem pymod_add_mul_int (x : ℚ) (k : ℤ) :
    pymod (x + 360 * (k : ℚ)) 360 = pymod x 360 := by
  unfold pymod
  have h : (x + 360 * (k : ℚ)) / 360 = x / 360 + (k : ℚ) := by
    field_simp
    ring
  rw [h, Int.floor_add_int]
  push_cast
  ring

theorem cartesian_shift (x w : ℚ) (k : ℤ) (hw : 90 - w = x + 360 * (k : ℚ)) :
    cartesian w = renorm360 x := by
  unfold cartesian renorm360
  rw [hw, pymod_add_mul_int]
  obtain ⟨h0, h1⟩ := pymod_bounds (by norm_num : (0:ℚ) < 360) x
  by_cases h : pymod x 360 > 180
  · rw [if_pos h, if_pos h]
  · rw [if_neg h, if_neg (by push_neg; linarith), if_neg h]

/-- Claim C6: the compass-cartesian transform is an involution up to the
normalization of the input into the half-open interval above -180 and up
to 180: `cartesian (cartesian x)` equals `x mod 360` renormalized, with
the particular values `cartesian 0 = 90`, `cartesian 90 = 0`,
`cartesian 270 = 180`. -/
theorem cartesian_involution :
    (∀ x : ℚ, cartesian (cartesian x) = renorm360 x) ∧
    cartesian 0 = 90 ∧ cartesian 90 = 0 ∧ cartesian 270 = 180 := by
  refine ⟨?_, ?_, ?_, ?_⟩
  · intro x
    obtain ⟨hm0, hm1⟩ := pymod_bounds (by norm_num : (0:ℚ) < 360) (90 - x)
    have hmx : pymod (90 - x) 360 = (90 - x) - 360 * (⌊(90 - x) / 360⌋ : ℚ) := rfl
    have hcx : cartesian x
        = if pymod (90 - x) 360 > 180 then pymod (90 - x) 360 - 360
          else pymod (90 - x) 360 := by
      unfold cartesian
      by_cases h : pymod (90 - x) 360 > 180
      · rw [if_pos h, if_pos h]
      · rw [if_neg h, if_neg (by push_neg; linarith), if_neg h]
    rw [hcx]
    by_cases h : pymod (90 - x) 360 > 180
    · rw [if_pos h]
      refine cartesian_shift x _ (⌊(90 - x) / 360⌋ + 1) ?_
      rw [hmx]
      push_cast
      ring
    · rw [if_neg h]
      refine cartesian_shift x _ ⌊(90 - x) / 360⌋ ?_
      rw [hmx]
      push_cast
      ring
  · norm_num [cartesian, pymod]
  · norm_num [cartesian, pymod]
  · norm_num [cartesian, pymod]

/-! ## Helper lemmas: DMS round trip -/

theorem pytrunc_dist_lt_one (q : ℚ) : |(pytrunc q : ℚ) - q| < 1 := by
  unfold pytrunc
  by_cases h : 0 ≤ q
  · rw [if_pos h, abs_lt]
    constructor
    · linarith [Int.lt_floor_add_one q]
    · linarith [Int.floor_le q]
  · rw [if_neg h, abs_lt]
    constructor
    · linarith [Int.le_ceil q]
    · linarith [Int.ceil_lt_add_one q]

theorem fdiv_three_bounds (t : ℤ) : t.fdiv 3 * 3 ≤ t ∧ t ≤ t.fdiv 3 * 3 + 2 := by
  rw [Int.fdiv_eq_ediv t (by norm_num : (0:ℤ) ≤ 3)]
  have hd := Int.ediv_add_emod t 3
  have h0 := Int.emod_nonneg t (by norm_num : (3:ℤ) ≠ 0)
  have h1 := Int.emod_lt_of_pos t (by norm_num : (0:ℤ) < 3)
  omega

/-- Claim C7: converting a decimal angle to a DMS triple with `dms` and
back with `decimal` returns a value within the 3-arc-second quantization
of the original angle. -/
theorem dms_decimal_roundtrip (θ : ℚ) : |decimal (dms θ) - θ| ≤ 3 / 3600 := by
  have hdms : dms θ
      = (pytrunc θ, pytrunc ((θ - (pytrunc θ : ℚ)) * 60),
          (pytrunc ((θ - (pytrunc θ : ℚ) - (pytrunc ((θ - (pytrunc θ : ℚ)) * 60) : ℚ) / 60) * 3600)).fdiv 3 * 3) := rfl
  set d := pytrunc θ with hd
  set m := pytrunc ((θ - (d : ℚ)) * 60) with hm
  set s : ℚ := (θ - (d : ℚ) - (m : ℚ) / 60) * 3600 with hs
  set t := pytrunc s with ht
  have hθ : θ = (d : ℚ) + (m : ℚ) / 60 + s / 3600 := by
    rw [hs]
    ring
  have hdec : decimal (dms θ) = (d : ℚ) + (m : ℚ) / 60 + ((t.fdiv 3 * 3 : ℤ) : ℚ) / 3600 := by
    rw [hdms]
    unfold decimal
    norm_num
  have hdiff : decimal (dms θ) - θ = (((t.fdiv 3 * 3 : ℤ) : ℚ) - s) / 3600 := by
    rw [hdec, hθ]
    ring
  obtain ⟨hf1, hf2⟩ := fdiv_three_bounds t
  have hq1 : ((t.fdiv 3 * 3 : ℤ) : ℚ) ≤ (t : ℚ) := by exact_mod_cast hf1
  have hq2 : (t : ℚ) ≤ ((t.fdiv 3 * 3 : ℤ) : ℚ) + 2 := by exact_mod_cast hf2
  have hts := pytrunc_dist_lt_one s
  rw [← ht] at hts
  rw [hdiff, abs_div, abs_of_pos (by norm_num : (0:ℚ) < 3600)]
  have habs := abs_lt.mp hts
  gcongr
  rw [abs_le]
  constructor
  · nlinarith
  · nlinarith

/-- Claim C2: adding sample-aligned seconds to a Degree triple carries one
minute in the direction of the increment's sign when the seconds total
reaches magnitude 60 or crosses the triple's working sign, and cascades
identically from minutes into degrees; in particular
`(0,0,-3) + 3 = (0,0,0)` and `(-1,0,0) + 3 = (0,-59,-57)`. -/
theorem degree_add_carry :
    (Degree.add (Degree.ofTriple 0 0 (-3)) 3 = ⟨0, 0, 0, 1⟩) ∧
    (Degree.add (Degree.ofTriple (-1) 0 0) 3 = ⟨0, -59, -57, -1⟩) ∧
    (∀ (deg : Degree) (t : ℤ), t ≠ 0 →
      ((deg.s + t).natAbs = 60 ∨ (deg.s + t ≠ 0 ∧ pysign (deg.s + t) ≠ degWorkSign deg t)) →
      (¬((deg.m + pysign t).natAbs = 60 ∨
          (deg.m + pysign t ≠ 0 ∧ pysign (deg.m + pysign t) ≠ degWorkSign deg t)) →
        Degree.add deg t
          = ⟨deg.d, deg.m + pysign t, (deg.s + t).fmod (degWorkSign deg t * 60),
              degWorkSign deg t⟩) ∧
      (((deg.m + pysign t).natAbs = 60 ∨
          (deg.m + pysign t ≠ 0 ∧ pysign (deg.m + pysign t) ≠ degWorkSign deg t)) →
        Degree.add deg t
          = ⟨deg.d + pysign t, (deg.m + pysign t).fmod (degWorkSign deg t * 60),
              (deg.s + t).fmod (degWorkSign deg t * 60), degWorkSign deg t⟩)) := by
  refine ⟨by decide, by decide, ?_⟩
  intro deg t ht hs
  unfold degWorkSign at hs ⊢
  constructor
  · intro hm
    unfold Degree.add
    rw [if_neg ht, if_pos hs, if_neg hm]
  · intro hm
    unfold Degree.add
    rw [if_neg ht, if_pos hs, if_pos hm]


/-- Witness for C2: the carry applied at `(0, 59, 57)` plus 3 seconds,
which rolls the seconds to zero and cascades the minutes into degrees. -/
theorem degree_add_carry_witness :
    Degree.add ⟨0, 59, 57, 1⟩ 3
      = ⟨0 + pysign 3, ((59 : ℤ) + pysign 3).fmod (degWorkSign ⟨0, 59, 57, 1⟩ 3 * 60),
          ((57 : ℤ) + 3).fmod (degWorkSign ⟨0, 59, 57, 1⟩ 3 * 60),
          degWorkSign ⟨0, 59, 57, 1⟩ 3⟩ :=
  (degree_add_carry.2.2 ⟨0, 59, 57, 1⟩ 3 (by decide) (by decide)).2 (by decide)

/-- Claim C5: `north_offset` and `east_offset` compute the sample offset
as `|minutes*60 + seconds| / |delta|`, flip it to `row_count - offset - 1`
exactly when the delta's sign disagrees with the coordinate's sign, and
scale it by the row byte width and the sample byte width respectively;
the source's own examples evaluate accordingly. -/
theorem reader_offset_flip :
    (∀ (deg : Degree) (delta : ℤ), delta ≠ 0 →
      north_offset deg delta = claimOffset deg.m deg.s delta deg.sign BYTES_PER_ROW ∧
      east_offset deg delta = claimOffset deg.m deg.s delta deg.sign 2) ∧
    north_offset (Degree.ofTriple 37 0 0) (-SAMPLE_SECONDS) = 2882400 ∧
    north_offset (Degree.ofTriple (-1) (-59) (-57)) (-SAMPLE_SECONDS) = 2879998 ∧
    east_offset (Degree.ofTriple (-118) 0 0) (-SAMPLE_SECONDS) = 0 := by
  refine ⟨?_, by decide, by decide, by decide⟩
  intro deg delta _
  constructor
  · unfold north_offset claimOffset
    rw [Int.abs_eq_natAbs, Int.abs_eq_natAbs]
  · unfold east_offset claimOffset
    rw [Int.abs_eq_natAbs, Int.abs_eq_natAbs]

/-- Witness for C5: the flip equivalence applied at latitude `(37, 0, 0)`
with delta -3. -/
theorem reader_offset_flip_witness :
    north_offset (Degree.ofTriple 37 0 0) (-3)
      = claimOffset (Degree.ofTriple 37 0 0).m (Degree.ofTriple 37 0 0).s (-3)
          (Degree.ofTriple 37 0 0).sign BYTES_PER_ROW ∧
    east_offset (Degree.ofTriple 37 0 0) (-3)
      = claimOffset (Degree.ofTriple 37 0 0).m (Degree.ofTriple 37 0 0).s (-3)
          (Degree.ofTriple 37 0 0).sign 2 :=
  reader_offset_flip.1 (Degree.ofTriple 37 0 0) (-3) (by decide)

/-! ## Helper lemmas: tile locator -/

theorem pytrunc_nonpos {x : ℚ} (hx : x < 0) : pytrunc x ≤ 0 := by
  unfold pytrunc
  rw [if_neg (not_le.mpr hx)]
  exact Int.ceil_le.mpr (by exact_mod_cast hx.le)

/-- Counterexample to claim C3 as stated: for the point (43.5, -119.5)
the locator resolves tile N43W120 (southwest-corner latitude 43) but
returns first-sample latitude 44, not the southwest-corner latitude; and
the longitude delta is +3 regardless of hemisphere, so its sign does not
differ between an eastern and a western longitude. -/
theorem tile_locator_counterexample :
    (get_hgt_file (87/2) (-239/2)).northTile = true ∧
    (get_hgt_file (87/2) (-239/2)).latNum = 43 ∧
    (get_hgt_file (87/2) (-239/2)).lonNum = 120 ∧
    (get_hgt_file (87/2) (-239/2)).lat = 44 ∧
    (get_hgt_file (87/2) (-239/2)).lat
      ≠ tileNameLat (get_hgt_file (87/2) (-239/2)).northTile
          (get_hgt_file (87/2) (-239/2)).latNum ∧
    (get_hgt_file (1/2) (21/2)).d_lon = (get_hgt_file (1/2) (-21/2)).d_lon := by
  have h1 : pytrunc (87/2 : ℚ) = 43 := by norm_num [pytrunc]
  have h2 : pytrunc (-239/2 : ℚ) = -119 := by
    unfold pytrunc
    rw [if_neg (by norm_num), show ((-239 : ℚ)/2) = -(239/2) by norm_num, Int.ceil_neg]
    norm_num
  have hA : get_hgt_file (87/2) (-239/2) = ⟨true, 43, false, 120, 44, -120, -3, 3⟩ := by
    simp only [get_hgt_file]
    rw [if_neg (by norm_num : ¬((87/2 : ℚ) < 0)),
      if_pos (by norm_num : ((-239/2 : ℚ) < 0)), h1, h2]
    decide
  rw [hA]
  refine ⟨rfl, rfl, rfl, rfl, by decide, rfl⟩

/-- Claim C3 as amended: the locator returns the integer latitude of the
tile's first (northernmost) sample row, which is the tile-name southwest
corner latitude plus one; the southwest-corner integer longitude; a
latitude delta of -3 arc-seconds for northern and +3 for southern
coordinates; and a longitude delta of +3 arc-seconds in both hemispheres
(tiles are stored west-to-east everywhere). -/
theorem tile_locator_amended (north east : ℚ) :
    (get_hgt_file north east).lat
      = tileNameLat (get_hgt_file north east).northTile
          (get_hgt_file north east).latNum + 1 ∧
    (get_hgt_file north east).lon
      = tileNameLon (get_hgt_file north east).eastTile
          (get_hgt_file north east).lonNum ∧
    (get_hgt_file north east).d_lat
      = (if north < 0 then SAMPLE_SECONDS else -SAMPLE_SECONDS) ∧
    (get_hgt_file north east).d_lon = SAMPLE_SECONDS := by
  by_cases hn : north < 0 <;> by_cases he : east < 0
  · have hH : get_hgt_file north east
        = ⟨false, |pytrunc north| + 1, false, |pytrunc east - 1|,
            pytrunc north, pytrunc east - 1, SAMPLE_SECONDS, SAMPLE_SECONDS⟩ := by
      simp only [get_hgt_file]
      rw [if_pos hn, if_pos he]
    rw [hH, if_pos hn]
    refine ⟨?_, ?_, rfl, rfl⟩
    · show pytrunc north = -(|pytrunc north| + 1) + 1
      rw [abs_of_nonpos (pytrunc_nonpos hn)]
      ring
    · show pytrunc east - 1 = -|pytrunc east - 1|
      rw [abs_of_nonpos (by linarith [pytrunc_nonpos he] : pytrunc east - 1 ≤ 0)]
      ring
  · have hH : get_hgt_file north east
        = ⟨false, |pytrunc north| + 1, true, pytrunc east,
            pytrunc north, pytrunc east, SAMPLE_SECONDS, SAMPLE_SECONDS⟩ := by
      simp only [get_hgt_file]
      rw [if_pos hn, if_neg he]
    rw [hH, if_pos hn]
    refine ⟨?_, rfl, rfl, rfl⟩
    show pytrunc north = -(|pytrunc north| + 1) + 1
    rw [abs_of_nonpos (pytrunc_nonpos hn)]
    ring
  · have hH : get_hgt_file north east
        = ⟨true, pytrunc north + 1 - 1, false, |pytrunc east - 1|,
            pytrunc north + 1, pytrunc east - 1, -SAMPLE_SECONDS, SAMPLE_SECONDS⟩ := by
      simp only [get_hgt_file]
      rw [if_neg hn, if_pos he]
    rw [hH, if_neg hn]
    refine ⟨by show pytrunc north + 1 = pytrunc north + 1 - 1 + 1; ring, ?_, rfl, rfl⟩
    show pytrunc east - 1 = -|pytrunc east - 1|
    rw [abs_of_nonpos (by linarith [pytrunc_nonpos he] : pytrunc east - 1 ≤ 0)]
    ring
  · have hH : get_hgt_file north east
        = ⟨true, pytrunc north + 1 - 1, true, pytrunc east,
            pytrunc north + 1, pytrunc east, -SAMPLE_SECONDS, SAMPLE_SECONDS⟩ := by
      simp only [get_hgt_file]
      rw [if_neg hn, if_neg he]
    rw [hH, if_neg hn]
    exact ⟨by show pytrunc north + 1 = pytrunc north + 1 - 1 + 1; ring, rfl, rfl, rfl⟩

/-- Claim C8: the refraction coefficient is honored, and folded into the
effective radius as `RADIUS / (1 - K)`, exactly when the configured
radius is finite and positive; for any other radius the coefficient is
forced to zero and the effective radius is the configured radius. -/
theorem refraction_gating :
    (∀ (r k : ℚ), 0 < r →
      configER (.fin r) k = .fin (r / (1 - k)) ∧ configK (.fin r) k = k) ∧
    (∀ (radius : Ext ℚ) (k : ℚ), radius.isPosFinite = false →
      configK radius k = 0 ∧ configER radius k = radius) ∧
    (∀ (radius : Ext ℚ) (k : ℚ), configK radius k ≠ 0 → radius.isPosFinite = true) := by
  refine ⟨?_, ?_, ?_⟩
  · intro r k hr
    simp only [configER, configK]
    rw [if_pos hr, if_pos hr]
    exact ⟨rfl, rfl⟩
  · intro radius k hfin
    cases radius with
    | fin r =>
      simp only [Ext.isPosFinite] at hfin
      rw [decide_eq_false_iff_not] at hfin
      simp only [configER, configK]
      rw [if_neg hfin, if_neg hfin]
      exact ⟨rfl, rfl⟩
    | posInf => exact ⟨rfl, rfl⟩
    | negInf => exact ⟨rfl, rfl⟩
  · intro radius k hk
    cases radius with
    | fin r =>
      simp only [configK] at hk
      simp only [Ext.isPosFinite]
      by_cases hr : 0 < r
      · exact decide_eq_true hr
      · rw [if_neg hr] at hk
        exact absurd rfl hk
    | posInf => exact absurd rfl hk
    | negInf => exact absurd rfl hk

/-- Witness for C8: the gating applied with radius 2 and coefficient 1/2
(honored), and with radius negative infinity (forced to zero). -/
theorem refraction_gating_witness :
    (configER (.fin 2) (1/2) = .fin (2 / (1 - 1/2)) ∧ configK (.fin 2) (1/2) = 1/2) ∧
    (configK Ext.negInf (1/2) = 0 ∧ configER Ext.negInf (1/2) = Ext.negInf) :=
  ⟨refraction_gating.1 2 (1/2) (by decide),
    refraction_gating.2.1 Ext.negInf (1/2) (by decide)⟩

/-- Claim C9: with a non-finite configured radius (positive or negative
infinity) the effective radius stays non-finite and `earthcurvature`
returns a drop of exactly zero, whatever the distance and units. -/
theorem flat_model_zero_drop (k distance : ℝ) (unit dropunit : String) :
    earthcurvature (configER_R Ext.posInf k) distance unit dropunit
      = some (distance, unit, 0, dropunit) ∧
    earthcurvature (configER_R Ext.negInf k) distance unit dropunit
      = some (distance, unit, 0, dropunit) :=
  ⟨rfl, rfl⟩

/-! ## Helper lemmas: movement geometry -/

open Real

theorem DEGREE_IN_METERS_pos : 0 < DEGREE_IN_METERS := by
  unfold DEGREE_IN_METERS RADIUS GLOBE KM
  positivity

theorem DEGREE_IN_METERS_ne : DEGREE_IN_METERS ≠ 0 := DEGREE_IN_METERS_pos.ne'

theorem cartesianR_zero : cartesianR 0 = 90 := by
  unfold cartesianR pymodR
  rw [show ((90:ℝ) - 0) = 90 by norm_num, show ⌊(90:ℝ)/360⌋ = 0 by norm_num]
  norm_num

theorem cartesianR_neg90 : cartesianR (-90) = 180 := by
  unfold cartesianR pymodR
  rw [show ((90:ℝ) - -90) = 180 by norm_num, show ⌊(180:ℝ)/360⌋ = 0 by norm_num]
  norm_num

theorem radians_cart0 : radiansR (cartesianR 0) = π / 2 := by
  rw [cartesianR_zero]
  unfold radiansR
  ring

theorem spherical_unfold (latitude longitude bearing distance : ℝ) :
    spherical_move latitude longitude bearing distance
      = (Real.sin (radiansR (cartesianR bearing)) * distance / DEGREE_IN_METERS + latitude,
          Real.cos (radiansR (cartesianR bearing)) * distance
            / Real.cos (radiansR (latitude
                + Real.sin (radiansR (cartesianR bearing)) * distance / DEGREE_IN_METERS / 2))
            / DEGREE_IN_METERS + longitude) := rfl

theorem equirect_unfold (latitude longitude bearing distance : ℝ) :
    equirectangular_move latitude longitude bearing distance
      = (latitude + Real.sin (radiansR (cartesianR bearing)) * (distance / DEGREE_IN_METERS),
          longitude + Real.cos (radiansR (cartesianR bearing)) * (distance / DEGREE_IN_METERS)) :=
  rfl

theorem equirect_unfold_false (latitude longitude bearing distance : ℝ) :
    equirectangular_move latitude longitude bearing distance false
      = (latitude + Real.sin (radiansR bearing) * (distance / DEGREE_IN_METERS),
          longitude + Real.cos (radiansR bearing) * (distance / DEGREE_IN_METERS)) :=
  rfl

theorem azimuthal_unfold (latitude longitude bearing distance : ℝ) (cb : Bool) :
    azimuthal_equidistant_move latitude longitude bearing distance cb
      = (90 - Real.sqrt
            (((90 - latitude) * Real.sin (radiansR longitude)
                + (equirectangular_move 0 0 bearing distance false).1)
              * ((90 - latitude) * Real.sin (radiansR longitude)
                + (equirectangular_move 0 0 bearing distance false).1)
            + ((90 - latitude) * Real.cos (radiansR longitude)
                + (equirectangular_move 0 0 bearing distance false).2)
              * ((90 - latitude) * Real.cos (radiansR longitude)
                + (equirectangular_move 0 0 bearing distance false).2)),
          compassR (degreesR (atan2
            ((90 - latitude) * Real.cos (radiansR longitude)
              + (equirectangular_move 0 0 bearing distance false).2)
            ((90 - latitude) * Real.sin (radiansR longitude)
              + (equirectangular_move 0 0 bearing distance false).1)))) := rfl

theorem equirect_north_unit :
    equirectangular_move 0 0 0 DEGREE_IN_METERS false = (0, 1) := by
  rw [equirect_unfold_false, show radiansR 0 = 0 by unfold radiansR; ring]
  rw [Real.sin_zero, Real.cos_zero, div_self DEGREE_IN_METERS_ne]
  norm_num

theorem sqrt_841 : Real.sqrt 841 = 29 := by
  rw [show (841:ℝ) = 29 ^ 2 by norm_num]
  exact Real.sqrt_sq (by norm_num)

theorem atan2_neg29_zero : atan2 (-29) 0 = -(π / 2) := by
  unfold atan2
  have hc : (⟨0, -29⟩ : ℂ) = (29 : ℝ) * (-Complex.I) := by
    apply Complex.ext <;> simp
  rw [hc, Complex.arg_real_mul _ (by norm_num : (0:ℝ) < 29), Complex.arg_neg_I]

/-- Counterexample to claim C4 as stated: at the claim's own starting
point (60, -110) the azimuthal-equidistant move due north by one degree
in meters does not return latitude 61, so the three movement functions do
not all agree there. -/
theorem movement_claim_counterexample :
    (azimuthal_equidistant_move 60 (-110) 0 DEGREE_IN_METERS).1 ≠ 61 := by
  rw [azimuthal_unfold, equirect_north_unit]
  have hθ : radiansR (-110) = -(11 * π / 18) := by
    unfold radiansR
    ring
  rw [hθ, Real.sin_neg, Real.cos_neg]
  intro h
  set c := Real.cos (11 * π / 18) with hc
  set s := Real.sin (11 * π / 18) with hs
  have hfst : (90:ℝ) - Real.sqrt
      (((90 - 60) * -s + (0, (1:ℝ)).1) * ((90 - 60) * -s + (0, (1:ℝ)).1)
        + ((90 - 60) * c + (0, (1:ℝ)).2) * ((90 - 60) * c + (0, (1:ℝ)).2)) = 61 := h
  have hS : ((90:ℝ) - 60) * -s + (0, (1:ℝ)).1 = -(30 * s) ∧
      ((90:ℝ) - 60) * c + (0, (1:ℝ)).2 = 30 * c + 1 := by
    constructor <;> norm_num <;> ring
  rw [hS.1, hS.2] at hfst
  have hSval : -(30 * s) * -(30 * s) + (30 * c + 1) * (30 * c + 1)
      = 901 + 60 * c := by
    have hpyth := Real.sin_sq_add_cos_sq (11 * π / 18)
    rw [← hs, ← hc] at hpyth
    nlinarith [hpyth]
  rw [hSval] at hfst
  have hS0 : (0:ℝ) ≤ 901 + 60 * c := by
    nlinarith [Real.neg_one_le_cos (11 * π / 18)]
  have h29 : Real.sqrt (901 + 60 * c) = 29 := by linarith
  have hEq : (901:ℝ) + 60 * c = 841 := by
    have hsq := Real.sq_sqrt hS0
    rw [h29] at hsq
    nlinarith [hsq]
  have hmem1 : 11 * π / 18 ∈ Set.Icc 0 π := by
    constructor
    · positivity
    · linarith [Real.pi_pos]
  have hmem2 : π ∈ Set.Icc 0 π := ⟨Real.pi_pos.le, le_refl π⟩
  have hlt : 11 * π / 18 < π := by linarith [Real.pi_pos]
  have hgt : Real.cos π < c := Real.strictAntiOn_cos hmem1 hmem2 hlt
  rw [Real.cos_pi] at hgt
  linarith

/-- Claim C4 as amended: from (60, -110) a move of one degree-in-meters
due north yields (61, -110) exactly under `spherical_move` and
`equirectangular_move`; the azimuthal-equidistant model produces the pure
one-degree polar move only from the bottom of its disk, longitude 180,
where it yields (61, 180); at longitude -110 its latitude differs from 61
(the counterexample theorem). -/
theorem movement_pure_polar :
    spherical_move 60 (-110) 0 DEGREE_IN_METERS = (61, -110) ∧
    equirectangular_move 60 (-110) 0 DEGREE_IN_METERS = (61, -110) ∧
    azimuthal_equidistant_move 60 180 0 DEGREE_IN_METERS = (61, 180) := by
  refine ⟨?_, ?_, ?_⟩
  · rw [spherical_unfold, radians_cart0, Real.sin_pi_div_two, Real.cos_pi_div_two]
    rw [one_mul, div_self DEGREE_IN_METERS_ne]
    norm_num
  · rw [equirect_unfold, radians_cart0, Real.sin_pi_div_two, Real.cos_pi_div_two]
    rw [div_self DEGREE_IN_METERS_ne]
    norm_num
  · rw [azimuthal_unfold, equirect_north_unit]
    have hθ : radiansR 180 = π := by
      unfold radiansR
      ring
    rw [hθ, Real.sin_pi, Real.cos_pi]
    have hX : ((90:ℝ) - 60) * 0 + (0, (1:ℝ)).1 = 0 := by norm_num
    have hY : ((90:ℝ) - 60) * -1 + (0, (1:ℝ)).2 = -29 := by norm_num
    rw [hX, hY]
    rw [show ((0:ℝ) * 0 + -29 * -29) = 841 by norm_num, sqrt_841,
      atan2_neg29_zero]
    have hdeg : degreesR (-(π / 2)) = -90 := by
      unfold degreesR
      field_simp
      ring
    rw [hdeg]
    unfold compassR
    rw [cartesianR_neg90]
    norm_num
